import Mathlib

/-!
Verification of the docker-compose-runner orchestrator (src/src/lib.rs) via a
shallow embedding. External effects (docker commands, the clock, log output)
are modelled by a `World` indexed by poll round; machine behaviour that the
source drives (the readiness wait loop, manifest parsing, service
construction, teardown) is translated function by function.
-/

namespace DockerComposeRunner

/-- Abstract model of a compiled `regex::Regex`: its source text and, for any
log text, the number of non-overlapping matches produced by `find_iter`. -/
structure Regex where
  source : String
  count : String → Nat

/-- `Regex::is_match`: a regex matches a string iff `find_iter` finds at least
one occurrence. -/
def Regex.is_match (r : Regex) (s : String) : Bool :=
  r.count s != 0

/-- `Image` from lib.rs: image name, the readiness regex (already compiled in
the model) and the startup timeout (`Duration` as nanoseconds). -/
structure Image where
  name : String
  log_regex_to_wait_for : Regex
  timeout : Nat

/-- `Service` from lib.rs: per-service readiness state. -/
structure Service where
  name : String
  log_to_wait_for : Regex
  logs_seen : Nat
  timeout : Nat

/-- `Service::new`: fresh state with `logs_seen = 0`, regex and timeout taken
from the image entry. -/
def Service.new (name : String) (image : Image) : Service :=
  { name := name
    log_to_wait_for := image.log_regex_to_wait_for
    logs_seen := 0
    timeout := image.timeout }

/-- `c :: hay` starts with `needle` (character-list version of `str` matching
used to model `String::contains`). -/
def charsStartWith : List Char → List Char → Bool
  | [], _ => true
  | _ :: _, [] => false
  | a :: as, b :: bs => a == b && charsStartWith as bs

/-- `needle` occurs somewhere inside the character list. -/
def charsContain (needle : List Char) : List Char → Bool
  | [] => charsStartWith needle []
  | c :: rest => charsStartWith needle (c :: rest) || charsContain needle rest

/-- Model of Rust `str::contains` on whole strings. -/
def strContains (hay needle : String) : Bool :=
  charsContain needle.data hay.data

/-- `needle` occurs in `hay` as a contiguous substring (propositional form,
used to state what a diagnostic message mentions). -/
def strHasSub (hay needle : String) : Prop :=
  ∃ pre post : List Char, hay.data = pre ++ needle.data ++ post

/-- The external world seen by one `wait_for_logs` invocation, indexed by poll
round `t`: per-service log text, whole-environment log text, the output of
`docker compose ps --status <s>`, the elapsed clock reading (nanoseconds) at
the round's timeout check, and the text of `docker compose ps --help`. -/
structure World where
  serviceLog : Nat → String → String
  allLogs : Nat → String
  psOutput : Nat → String → String
  elapsed : Nat → Nat
  psHelp : String

/-- The `can_use_status_flag` probe: `ps --help` output contains `--status`. -/
def World.canUseStatusFlag (w : World) : Bool :=
  strContains w.psHelp "--status"

/-- Number of newline characters in a command's output
(`containers.matches('\n').count()`). -/
def countNewlines (s : String) : Nat :=
  s.data.count '\n'

/-- One service is ready at round `t`: occurrences of its pattern in its log
strictly exceed `logs_seen`. -/
def serviceReady (w : World) (t : Nat) (s : Service) : Bool :=
  s.logs_seen < s.log_to_wait_for.count (w.serviceLog t s.name)

/-- Every service is ready at round `t` (`services.iter().all(...)`). -/
def allReady (w : World) (t : Nat) (ss : List Service) : Bool :=
  ss.all (serviceReady w t)

/-- `logs_seen += 1` applied to every service on readiness success. -/
def bumpSeen (s : Service) : Service :=
  { s with logs_seen := s.logs_seen + 1 }

def bumpAll (ss : List Service) : List Service :=
  ss.map bumpSeen

/-- `assert_no_containers_in_service_with_status` fires for `status` at round
`t`: the `ps --status` output has more than one line of text. -/
def statusFails (w : World) (t : Nat) (status : String) : Bool :=
  1 < countNewlines (w.psOutput t status)

/-- The three status probes of the wait loop, in source order; the first that
fires aborts the wait. -/
def failedStatus? (w : World) (t : Nat) : Option String :=
  if statusFails w t "exited" then some "exited"
  else if statusFails w t "dead" then some "dead"
  else if statusFails w t "removing" then some "removing"
  else none

/-- The per-service line of the timeout report (the `writeln!` at the end of
`wait_for_logs`, newline included). -/
def serviceReportLine (w : World) (t : Nat) (s : Service) : String :=
  "*    Service " ++ s.name ++ ", searched for '" ++ s.log_to_wait_for.source
    ++ "', was "
    ++ (if s.log_to_wait_for.is_match (w.serviceLog t s.name) then "Found" else "Missing")
    ++ "\n"

/-- The accumulated `results` string of the timeout branch. -/
def timeoutReport (w : World) (t : Nat) (ss : List Service) : String :=
  ss.foldl (fun acc s => acc ++ serviceReportLine w t s) ""

/-- `services.iter().map(|s| s.timeout).max_by_key(|x| x.as_nanos())`:
`none` exactly on an empty service list. -/
def maxTimeout? : List Service → Option Nat
  | [] => none
  | s :: rest => some (rest.foldl (fun acc s2 => max acc s2.timeout) s.timeout)

/-- Outcome of one `wait_for_logs` invocation. `ready` carries the updated
services; the two failure forms model the panics with their diagnostic
payloads; `panicEmptyServices` models the `unwrap` of the maximum over an
empty collection; `outOfFuel` is the embedding artifact for a loop cut off
before it terminated. -/
inductive WaitResult
  | ready (services : List Service)
  | containerFailed (status : String) (psText : String) (allLogs : String)
  | timedOut (report : String) (allLogs : String)
  | panicEmptyServices
  | outOfFuel

/-- The poll loop of `wait_for_logs`, one constructor step per round `t`:
readiness check first, then (when the status flag is usable) the fail-fast
status probes, then the timeout check, else poll again. -/
def waitLoop (w : World) (timeout : Nat) (ss : List Service) : Nat → Nat → WaitResult
  | 0, _ => .outOfFuel
  | fuel + 1, t =>
    if allReady w t ss then
      .ready (bumpAll ss)
    else
      let rest :=
        if timeout < w.elapsed t then
          .timedOut (timeoutReport w t ss) (w.allLogs t)
        else
          waitLoop w timeout ss fuel (t + 1)
      if w.canUseStatusFlag then
        match failedStatus? w t with
        | some st => .containerFailed st (w.psOutput t st) (w.allLogs t)
        | none => rest
      else rest

/-- `DockerCompose::wait_for_logs`: compute the overall timeout (panicking on
an empty service list), then run the poll loop from round 0. -/
def wait_for_logs (w : World) (ss : List Service) (fuel : Nat) : WaitResult :=
  match maxTimeout? ss with
  | none => .panicEmptyServices
  | some timeout => waitLoop w timeout ss fuel 0

/-- Result of one `subprocess` capture: merged stdout+stderr text, the success
bit of the exit status, and the Debug rendering of the exit status. -/
structure CmdResult where
  success : Bool
  output : String
  status : String

/-- Tail of the `{:?}` rendering of a `&[&str]` slice: each further element
quoted and comma-separated. -/
def argsDebugRest : List String → String
  | [] => ""
  | a :: rest => ", \"" ++ a ++ "\"" ++ argsDebugRest rest

/-- The `{:?}` rendering of the `&[&str]` argument slice, e.g.
`["compose", "-f"]`. -/
def argsDebug : List String → String
  | [] => "[]"
  | a :: rest => "[\"" ++ a ++ "\"" ++ argsDebugRest rest ++ "]"

/-- `run_command`: the single capture attempt either fails outright (the `?`
on `.capture()`) or yields a `CmdResult`; a success exit status returns the
merged output, anything else returns the formatted diagnostic error. -/
def run_command (command : String) (args : List String)
    (capture : Except String CmdResult) : Except String String :=
  match capture with
  | .error e => .error e
  | .ok data =>
    if data.success then
      .ok data.output
    else
      .error ("command " ++ command ++ " " ++ argsDebug args ++ " exited with "
        ++ data.status ++ " and output:\n" ++ data.output)

/-- `serde_yaml::Value`, restricted to the shapes the source inspects. -/
inductive Value
  | null
  | bool (b : Bool)
  | number (n : Int)
  | string (s : String)
  | sequence (l : List Value)
  | mapping (l : List (Value × Value))

/-- `Mapping::get` with a `&str` index: the first entry whose key is the given
string. -/
def mapGet (m : List (Value × Value)) (key : String) : Option Value :=
  (m.find? (fun p =>
    match p.1 with
    | .string s => s == key
    | _ => false)).map (·.2)

/-- `HashMap::insert`: replace the value of an existing key, else add the
binding. -/
def insertAssoc : List (String × String) → String → String → List (String × String)
  | [], k, v => [(k, v)]
  | (k', v') :: rest, k, v =>
    if k' == k then (k, v) :: rest else (k', v') :: insertAssoc rest k v

/-- The `for (service_name, service) in services` loop of
`get_service_to_image`, with `acc` as the `result` map; each arm that panics
in the source (non-string service name, non-mapping service, missing or
non-string image) becomes an `error`. -/
def collectServices (acc : List (String × String)) :
    List (Value × Value) → Except String (List (String × String))
  | [] => .ok acc
  | (Value.string service_name, Value.mapping service) :: rest =>
    match mapGet service "image" with
    | some (.string image) =>
      collectServices (insertAssoc acc service_name image) rest
    | some _ => .error "Unexpected image"
    | none => .error "called Option::unwrap on a None value"
  | (Value.string _, _) :: _ => .error "Unexpected service"
  | _ => .error "Unexpected service_name"

/-- `DockerCompose::get_service_to_image` on the parsed manifest document. -/
def get_service_to_image (doc : Value) : Except String (List (String × String)) :=
  match doc with
  | .mapping root =>
    match mapGet root "services" with
    | some (.mapping services) => collectServices [] services
    | some _ => .error "Unexpected services"
    | none => .error "called Option::unwrap on a None value"
  | _ => .error "Unexpected root"

/-- `DockerCompose::get_services`: one `Service` per manifest entry, resolving
the image against `image_waiters`; a missing entry is the panic naming the
image. -/
def get_services (image_waiters : List Image) :
    List (String × String) → Except String (List Service)
  | [] => .ok []
  | (service_name, image_name) :: rest =>
    match image_waiters.find? (fun image => image.name == image_name) with
    | some image =>
      (get_services image_waiters rest).map (Service.new service_name image :: ·)
    | none => .error image_name

/-- The handle returned by construction. -/
structure DockerCompose where
  file_path : String
  services : List Service

/-- The externally visible steps of `DockerCompose::new`, in the order the
source issues them. -/
inductive Event
  | runtimeCheck
  | cleanUpKill
  | cleanUpDown
  | buildImages (images : List String)
  | composeUpD
  | waitForLogs
deriving DecidableEq, Repr

/-- How `DockerCompose::new` ends. -/
inductive NewResult
  | ok (dc : DockerCompose)
  | panicManifest (msg : String)
  | panicMissingImage (image : String)
  | panicWait (r : WaitResult)

/-- What construction reads from the outside: the wait-loop world, the parsed
manifest document and the manifest path. -/
structure NewWorld where
  wait : World
  doc : Value
  file_path : String

/-- `DockerCompose::new`, returning the outcome together with the trace of
external steps issued before that outcome: runtime probe, `clean_up`
(kill + down), manifest parse, image-builder callback, `up -d`, service
resolution, readiness wait. -/
def DockerCompose.new (image_waiters : List Image) (nw : NewWorld) (fuel : Nat) :
    NewResult × List Event :=
  let ev0 := [Event.runtimeCheck, Event.cleanUpKill, Event.cleanUpDown]
  match get_service_to_image nw.doc with
  | .error m => (.panicManifest m, ev0)
  | .ok service_to_image =>
    let images := service_to_image.map (·.2)
    let ev1 := ev0 ++ [Event.buildImages images, Event.composeUpD]
    match get_services image_waiters service_to_image with
    | .error image => (.panicMissingImage image, ev1)
    | .ok services =>
      match wait_for_logs nw.wait services fuel with
      | .ready services' =>
        (.ok { file_path := nw.file_path, services := services' },
         ev1 ++ [Event.waitForLogs])
      | r => (.panicWait r, ev1 ++ [Event.waitForLogs])

/-- `stop_service` only issues a runtime command; the in-memory service state
is untouched (`&self`). -/
def DockerCompose.stop_service (dc : DockerCompose) (_service_name : String) :
    DockerCompose :=
  dc

/-- `kill_service` only issues a runtime command; the in-memory service state
is untouched (`&self`). -/
def DockerCompose.kill_service (dc : DockerCompose) (_service_name : String) :
    DockerCompose :=
  dc

/-- Replace the first service with the given name (the `&mut` handed to
`wait_for_logs` by `start_service`). -/
def replaceFirst : List Service → String → Service → List Service
  | [], _, _ => []
  | s :: rest, n, s' =>
    if s.name == n then s' :: rest else s :: replaceFirst rest n s'

/-- `DockerCompose::start_service`: find the service (panic — `none` — when
absent), re-run the readiness wait on just that service, and store its
updated state. A wait that does not end in `ready` is a panic (`none`); the
`ready` payload of a singleton wait is always a singleton, so the catch-all
arm is unreachable. -/
def DockerCompose.start_service (w : World) (dc : DockerCompose)
    (service_name : String) (fuel : Nat) : Option DockerCompose :=
  match dc.services.find? (fun s => s.name == service_name) with
  | none => none
  | some service =>
    match wait_for_logs w [service] fuel with
    | .ready [service'] =>
      some { dc with services := replaceFirst dc.services service_name service' }
    | _ => none

/-- What teardown reads from the outside: the capture results of the `kill`
and `down -v` commands. -/
structure DropWorld where
  killRes : Except String CmdResult
  downRes : Except String CmdResult

/-- `DockerCompose::clean_up`: `kill` then `down -v`, each `?`-propagated;
also returns the argument vectors of the commands actually issued. -/
def clean_up (file_path : String) (w : DropWorld) :
    List (List String) × Except String Unit :=
  let killArgs := ["compose", "-f", file_path, "kill"]
  let downArgs := ["compose", "-f", file_path, "down", "-v"]
  match run_command "docker" killArgs w.killRes with
  | .error e => ([killArgs], .error e)
  | .ok _ =>
    match run_command "docker" downArgs w.downRes with
    | .error e => ([killArgs, downArgs], .error e)
    | .ok _ => ([killArgs, downArgs], .ok ())

/-- How `Drop for DockerCompose` ends. -/
inductive DropOutcome
  | ok
  | printedError (msg : String)
  | panicked (msg : String)
deriving Repr

/-- `Drop for DockerCompose`: always run `clean_up`; while panicking a
cleanup failure is only printed, otherwise it is `unwrap`ped (a fresh
panic). -/
def dropDockerCompose (dc : DockerCompose) (panicking : Bool) (w : DropWorld) :
    List (List String) × DropOutcome :=
  let (cmds, res) := clean_up dc.file_path w
  if panicking then
    match res with
    | .error e =>
      (cmds, .printedError
        ("ERROR: docker compose failed to bring down while already panicking: " ++ e))
    | .ok _ => (cmds, .ok)
  else
    match res with
    | .error e => (cmds, .panicked e)
    | .ok _ => (cmds, .ok)

/-- A poll round aborts the wait (fail-fast status check fires, or the
timeout is exceeded) rather than polling again. -/
def roundFails (w : World) (timeout : Nat) (t : Nat) : Bool :=
  (w.canUseStatusFlag && (failedStatus? w t).isSome) || decide (timeout < w.elapsed t)

/-- Specification side of the manifest-shape refinement: one `services`
entry is acceptable when its key is a string and its value is a mapping
carrying a string `image` field. Stated from the spec's words, to be compared
with `collectServices` (translated from the source). -/
def GoodServiceEntry (p : Value × Value) : Prop :=
  (∃ name, p.1 = Value.string name)
    ∧ ∃ sm, p.2 = Value.mapping sm
        ∧ ∃ img, mapGet sm "image" = some (Value.string img)

/-- Specification side of the manifest-shape refinement (spec §4.2): a
top-level mapping with a `services` key, itself a mapping whose every entry
is a `GoodServiceEntry`. -/
def WellShapedManifest (doc : Value) : Prop :=
  ∃ root svcs, doc = Value.mapping root
    ∧ mapGet root "services" = some (Value.mapping svcs)
    ∧ ∀ p ∈ svcs, GoodServiceEntry p

/-! ## Concrete fixtures used to instantiate the theorems -/

/-- A service waiting for a pattern modelled as "log nonempty", 5ns budget. -/
def sW : Service := ⟨"db", ⟨"Ready", fun log => log.length⟩, 0, 5⟩

/-- World where the service log becomes nonempty from round 1 on. -/
def wRD : World :=
  ⟨fun t _ => if t = 0 then "" else "R", fun _ => "", fun _ _ => "", fun _ => 0, ""⟩

/-- World whose clock is already past 5ns and whose logs never match. -/
def wTO : World :=
  ⟨fun _ _ => "", fun _ => "env-logs", fun _ _ => "", fun _ => 10, ""⟩

/-- World advertising `--status` whose `ps` output has three lines. -/
def wCF : World :=
  ⟨fun _ _ => "", fun _ => "env-logs", fun _ _ => "h\na\nb", fun _ => 0,
    "Usage: ps --status"⟩

/-- World that answers every query with the empty string. -/
def worldTriv : World := ⟨fun _ _ => "", fun _ => "", fun _ _ => "", fun _ => 0, ""⟩

/-- Manifest services node: one service `a` with image `x`. -/
def svcsC2 : List (Value × Value) :=
  [(.string "a", .mapping [(.string "image", .string "x")])]

def rootC2 : List (Value × Value) := [(.string "services", .mapping svcsC2)]

def docC2 : Value := .mapping rootC2

def nwC2 : NewWorld := ⟨worldTriv, docC2, "compose.yaml"⟩

/-- Manifest with two services `a` and `b` that share the image `x`. -/
def docC6 : Value :=
  .mapping [(.string "services",
    .mapping [(.string "a", .mapping [(.string "image", .string "x")]),
              (.string "b", .mapping [(.string "image", .string "x")])])]

def nwC6 : NewWorld := ⟨worldTriv, docC6, "compose.yaml"⟩

/-- A constructed handle. -/
def dcW : DockerCompose := ⟨"compose.yaml", [sW]⟩

/-- Teardown world: `kill` captures fine, `down -v` capture fails. -/
def dwW : DropWorld := ⟨.ok ⟨true, "", "Exited(0)"⟩, .error "down failed"⟩

/-! ## Substring helper lemmas -/

theorem strHasSub_refl (s : String) : strHasSub s s :=
  ⟨[], [], by simp⟩

theorem strHasSub_appendL (x hay needle : String) (h : strHasSub hay needle) :
    strHasSub (x ++ hay) needle := by
  obtain ⟨pre, post, hp⟩ := h
  exact ⟨x.data ++ pre, post, by simp [String.data_append, hp]⟩

theorem strHasSub_appendR (x hay needle : String) (h : strHasSub hay needle) :
    strHasSub (hay ++ x) needle := by
  obtain ⟨pre, post, hp⟩ := h
  exact ⟨pre, post ++ x.data, by simp [String.data_append, hp]⟩

theorem strHasSub_trans (a b c : String) (h1 : strHasSub a b) (h2 : strHasSub b c) :
    strHasSub a c := by
  obtain ⟨p, q, hp⟩ := h1
  obtain ⟨p', q', hp'⟩ := h2
  exact ⟨p ++ p', q' ++ q, by simp [hp, hp']⟩

/-- The accumulator is a prefix of a string-building `foldl`. -/
theorem foldl_append_data {α : Type} (f : α → String) (l : List α) :
    ∀ acc : String, ∃ s : List Char,
      (l.foldl (fun b x => b ++ f x) acc).data = acc.data ++ s := by
  induction l with
  | nil => intro acc; exact ⟨[], by simp⟩
  | cons hd tl ih =>
    intro acc
    obtain ⟨s, hs⟩ := ih (acc ++ f hd)
    exact ⟨(f hd).data ++ s, by simp [List.foldl_cons, hs, String.data_append]⟩

/-- Every piece a string-building `foldl` appends occurs in the result. -/
theorem strHasSub_foldl {α : Type} (f : α → String) (l : List α) (a : α)
    (ha : a ∈ l) : ∀ acc, strHasSub (l.foldl (fun b x => b ++ f x) acc) (f a) := by
  induction l with
  | nil => cases ha
  | cons hd tl ih =>
    intro acc
    rcases List.mem_cons.mp ha with h | h
    · subst h
      obtain ⟨s, hs⟩ := foldl_append_data f tl (acc ++ f a)
      exact ⟨acc.data, s, by simp [List.foldl_cons, hs, String.data_append]⟩
    · simpa [List.foldl_cons] using ih h (acc ++ f hd)

/-! ## Wait-loop characterization lemmas -/

theorem waitLoop_ready_iff_aux (w : World) (T : Nat) (ss : List Service) :
    ∀ (fuel t0 : Nat) (out : List Service),
      waitLoop w T ss fuel t0 = .ready out ↔
        ∃ k, k < fuel ∧ allReady w (t0 + k) ss = true
          ∧ (∀ j, j < k → allReady w (t0 + j) ss = false ∧ roundFails w T (t0 + j) = false)
          ∧ out = bumpAll ss := by
  intro fuel
  induction fuel with
  | zero =>
    intro t0 out
    simp [waitLoop]
  | succ fuel ih =>
    intro t0 out
    by_cases h1 : allReady w t0 ss = true
    · constructor
      · intro h
        refine ⟨0, Nat.succ_pos fuel, by simpa using h1, by omega, ?_⟩
        simp only [waitLoop, h1, if_true, WaitResult.ready.injEq] at h
        exact h.symm
      · rintro ⟨k, _, _, _, hout⟩
        simp [waitLoop, h1, hout]
    · have hstep : waitLoop w T ss (fuel + 1) t0 =
          (if w.canUseStatusFlag then
            match failedStatus? w t0 with
            | some st => .containerFailed st (w.psOutput t0 st) (w.allLogs t0)
            | none =>
              if T < w.elapsed t0 then .timedOut (timeoutReport w t0 ss) (w.allLogs t0)
              else waitLoop w T ss fuel (t0 + 1)
          else
            if T < w.elapsed t0 then .timedOut (timeoutReport w t0 ss) (w.allLogs t0)
            else waitLoop w T ss fuel (t0 + 1)) := by
        simp only [waitLoop, h1, Bool.false_eq_true, if_false]
      by_cases hrf : roundFails w T t0 = true
      · -- this round aborts: the result is a failure constructor, never `ready`
        have hrf2 : (w.canUseStatusFlag = true ∧ (failedStatus? w t0).isSome = true)
            ∨ T < w.elapsed t0 := by simpa [roundFails] using hrf
        have hnotready : waitLoop w T ss (fuel + 1) t0 ≠ .ready out := by
          rw [hstep]
          rcases hrf2 with ⟨hflag, hsome⟩ | hel
          · obtain ⟨st, hst⟩ := Option.isSome_iff_exists.mp hsome
            simp [hflag, hst]
          · by_cases hflag : w.canUseStatusFlag = true
            · cases hst : failedStatus? w t0 with
              | none => simp [hflag, hst, hel]
              | some st => simp [hflag, hst]
            · simp [Bool.eq_false_iff.mpr hflag, hel]
        constructor
        · intro h; exact absurd h hnotready
        · rintro ⟨k, _, hall, hprev, _⟩
          cases k with
          | zero => rw [Nat.add_zero] at hall; exact absurd hall (by simp [h1])
          | succ k' =>
            have hz := (hprev 0 (Nat.succ_pos k')).2
            rw [Nat.add_zero] at hz
            rw [hz] at hrf
            simp at hrf
      · -- this round polls again: shift the round index by one
        have hrf2 : (w.canUseStatusFlag = true → failedStatus? w t0 = none)
            ∧ w.elapsed t0 ≤ T := by simpa [roundFails] using hrf
        have hel2 : ¬ T < w.elapsed t0 := by have := hrf2.2; omega
        have hrec : waitLoop w T ss (fuel + 1) t0 = waitLoop w T ss fuel (t0 + 1) := by
          rw [hstep]
          by_cases hflag : w.canUseStatusFlag = true
          · simp [hflag, hrf2.1 hflag, hel2]
          · simp [Bool.eq_false_iff.mpr hflag, hel2]
        rw [hrec, ih (t0 + 1) out]
        constructor
        · rintro ⟨k, hk, hall, hprev, hout⟩
          refine ⟨k + 1, by omega, by rw [(by omega : t0 + (k + 1) = t0 + 1 + k)]; exact hall,
            ?_, hout⟩
          intro j hj
          cases j with
          | zero =>
            rw [Nat.add_zero]
            exact ⟨Bool.eq_false_iff.mpr h1, by simpa [roundFails] using hrf2⟩
          | succ j' =>
            rw [(by omega : t0 + (j' + 1) = t0 + 1 + j')]
            exact hprev j' (by omega)
        · rintro ⟨k, hk, hall, hprev, hout⟩
          cases k with
          | zero => rw [Nat.add_zero] at hall; exact absurd hall (by simp [h1])
          | succ k' =>
            refine ⟨k', by omega, by rw [(by omega : t0 + 1 + k' = t0 + (k' + 1))]; exact hall,
              ?_, hout⟩
            intro j hj
            rw [(by omega : t0 + 1 + j = t0 + (j + 1))]
            exact hprev (j + 1) (by omega)

/-- A `containerFailed` result pins down the failing round: the status flag
was usable, one of the three probes fired, and the payloads are that round's
`ps` output and full logs. -/
theorem waitLoop_containerFailed_aux (w : World) (T : Nat) (ss : List Service) :
    ∀ (fuel t0 : Nat) (st c l : String),
      waitLoop w T ss fuel t0 = .containerFailed st c l →
      w.canUseStatusFlag = true
        ∧ ∃ t, t0 ≤ t ∧ t < t0 + fuel ∧ failedStatus? w t = some st
            ∧ c = w.psOutput t st ∧ l = w.allLogs t := by
  intro fuel
  induction fuel with
  | zero => intro t0 st c l h; simp [waitLoop] at h
  | succ fuel ih =>
    intro t0 st c l h
    by_cases h1 : allReady w t0 ss = true
    · simp [waitLoop, h1] at h
    · simp only [waitLoop, h1, Bool.false_eq_true, if_false] at h
      by_cases hflag : w.canUseStatusFlag = true
      · rw [if_pos hflag] at h
        cases hst : failedStatus? w t0 with
        | some st' =>
          rw [hst] at h
          simp only [WaitResult.containerFailed.injEq] at h
          obtain ⟨rfl, hc, hl⟩ := h
          exact ⟨hflag, t0, Nat.le_refl t0, by omega, hst, hc.symm, hl.symm⟩
        | none =>
          rw [hst] at h
          by_cases hel : T < w.elapsed t0
          · rw [if_pos hel] at h; cases h
          · rw [if_neg hel] at h
            obtain ⟨hflag', t, ht0, htf, rest⟩ := ih (t0 + 1) st c l h
            exact ⟨hflag', t, by omega, by omega, rest⟩
      · rw [if_neg hflag] at h
        by_cases hel : T < w.elapsed t0
        · rw [if_pos hel] at h; cases h
        · rw [if_neg hel] at h
          obtain ⟨hflag', t, ht0, htf, rest⟩ := ih (t0 + 1) st c l h
          exact ⟨hflag', t, by omega, by omega, rest⟩

/-- A `timedOut` result pins down the failing round: the elapsed clock
exceeded the computed timeout there, and the payloads are that round's
per-service report and full logs. -/
theorem waitLoop_timedOut_aux (w : World) (T : Nat) (ss : List Service) :
    ∀ (fuel t0 : Nat) (r l : String),
      waitLoop w T ss fuel t0 = .timedOut r l →
      ∃ t, t0 ≤ t ∧ t < t0 + fuel ∧ T < w.elapsed t
        ∧ r = timeoutReport w t ss ∧ l = w.allLogs t := by
  intro fuel
  induction fuel with
  | zero => intro t0 r l h; simp [waitLoop] at h
  | succ fuel ih =>
    intro t0 r l h
    by_cases h1 : allReady w t0 ss = true
    · simp [waitLoop, h1] at h
    · simp only [waitLoop, h1, Bool.false_eq_true, if_false] at h
      have step : (if T < w.elapsed t0 then
            WaitResult.timedOut (timeoutReport w t0 ss) (w.allLogs t0)
          else waitLoop w T ss fuel (t0 + 1)) = .timedOut r l := by
        by_cases hflag : w.canUseStatusFlag = true
        · rw [if_pos hflag] at h
          cases hst : failedStatus? w t0 with
          | some st' => rw [hst] at h; cases h
          | none => rw [hst] at h; exact h
        · rw [if_neg hflag] at h; exact h
      by_cases hel : T < w.elapsed t0
      · rw [if_pos hel] at step
        simp only [WaitResult.timedOut.injEq] at step
        exact ⟨t0, Nat.le_refl t0, by omega, hel, step.1.symm, step.2.symm⟩
      · rw [if_neg hel] at step
        obtain ⟨t, ht0, htf, rest⟩ := ih (t0 + 1) r l step
        exact ⟨t, by omega, by omega, rest⟩

/-- `failedStatus?` only reports one of the three probed statuses, and only
when the corresponding `ps` output has more than one line. -/
theorem failedStatus?_spec (w : World) (t : Nat) (st : String)
    (h : failedStatus? w t = some st) :
    (st = "exited" ∨ st = "dead" ∨ st = "removing")
      ∧ 1 < countNewlines (w.psOutput t st) := by
  unfold failedStatus? at h
  by_cases h1 : statusFails w t "exited" = true
  · rw [if_pos h1] at h
    obtain rfl : st = "exited" := by simpa using h.symm
    exact ⟨Or.inl rfl, by simpa [statusFails] using h1⟩
  · rw [if_neg h1] at h
    by_cases h2 : statusFails w t "dead" = true
    · rw [if_pos h2] at h
      obtain rfl : st = "dead" := by simpa using h.symm
      exact ⟨Or.inr (Or.inl rfl), by simpa [statusFails] using h2⟩
    · rw [if_neg h2] at h
      by_cases h3 : statusFails w t "removing" = true
      · rw [if_pos h3] at h
        obtain rfl : st = "removing" := by simpa using h.symm
        exact ⟨Or.inr (Or.inr rfl), by simpa [statusFails] using h3⟩
      · rw [if_neg h3] at h; cases h

/-- The folded maximum produced by `maxTimeout?` dominates every service's
timeout and is itself one of them. -/
theorem maxTimeout?_spec (ss : List Service) (T : Nat) (h : maxTimeout? ss = some T) :
    (∀ s ∈ ss, s.timeout ≤ T) ∧ T ∈ ss.map (·.timeout) := by
  have key : ∀ (rest : List Service) (a : Nat),
      (∀ x ∈ rest, x.timeout ≤ rest.foldl (fun acc s2 => max acc s2.timeout) a)
      ∧ a ≤ rest.foldl (fun acc s2 => max acc s2.timeout) a
      ∧ (rest.foldl (fun acc s2 => max acc s2.timeout) a = a
          ∨ rest.foldl (fun acc s2 => max acc s2.timeout) a ∈ rest.map (·.timeout)) := by
    intro rest
    induction rest with
    | nil => intro a; simp
    | cons x xs ih =>
      intro a
      obtain ⟨hall, hacc, hmem⟩ := ih (max a x.timeout)
      refine ⟨?_, ?_, ?_⟩
      · intro y hy
        rcases List.mem_cons.mp hy with rfl | hy'
        · simpa using le_trans (le_max_right a y.timeout) hacc
        · simpa using hall y hy'
      · simpa using le_trans (le_max_left a x.timeout) hacc
      · rcases hmem with heq | hmem'
        · rcases max_choice a x.timeout with hc | hc
          · exact Or.inl (by simpa [hc] using heq)
          · refine Or.inr ?_
            simp only [List.map_cons, List.mem_cons, List.foldl_cons]
            exact Or.inl (by rw [heq, hc])
        · refine Or.inr ?_
          simp only [List.map_cons, List.mem_cons, List.foldl_cons]
          exact Or.inr (by simpa using hmem')
  cases ss with
  | nil => cases h
  | cons s rest =>
    simp only [maxTimeout?, Option.some.injEq] at h
    obtain ⟨hall, hacc, hmem⟩ := key rest s.timeout
    subst h
    refine ⟨?_, ?_⟩
    · intro y hy
      rcases List.mem_cons.mp hy with rfl | hy'
      · exact hacc
      · exact hall y hy'
    · rcases hmem with heq | hmem'
      · simp [heq]
      · simp only [List.map_cons, List.mem_cons]
        exact Or.inr hmem'

/-- Each part of a service's timeout-report line occurs in the accumulated
report whenever the service participates. -/
theorem timeoutReport_mentions (w : World) (t : Nat) (ss : List Service)
    (s : Service) (hs : s ∈ ss) :
    strHasSub (timeoutReport w t ss) s.name
      ∧ strHasSub (timeoutReport w t ss) s.log_to_wait_for.source
      ∧ strHasSub (timeoutReport w t ss)
          (if s.log_to_wait_for.is_match (w.serviceLog t s.name) = true
            then "Found" else "Missing") := by
  have hline : strHasSub (timeoutReport w t ss) (serviceReportLine w t s) :=
    strHasSub_foldl (serviceReportLine w t) ss s hs ""
  refine ⟨?_, ?_, ?_⟩
  · refine strHasSub_trans _ _ _ hline ?_
    unfold serviceReportLine
    exact ⟨"*    Service ".data,
      (", searched for '" ++ s.log_to_wait_for.source ++ "', was "
        ++ (if s.log_to_wait_for.is_match (w.serviceLog t s.name) then "Found" else "Missing")
        ++ "\n").data,
      by simp [String.data_append]⟩
  · refine strHasSub_trans _ _ _ hline ?_
    unfold serviceReportLine
    exact ⟨("*    Service " ++ s.name ++ ", searched for '").data,
      ("', was "
        ++ (if s.log_to_wait_for.is_match (w.serviceLog t s.name) then "Found" else "Missing")
        ++ "\n").data,
      by simp [String.data_append]⟩
  · refine strHasSub_trans _ _ _ hline ?_
    unfold serviceReportLine
    exact ⟨("*    Service " ++ s.name ++ ", searched for '"
        ++ s.log_to_wait_for.source ++ "', was ").data,
      "\n".data,
      by simp [String.data_append]⟩

/-! ## Claim theorems for the readiness wait -/

/-- C1. The readiness wait returns successfully exactly when some poll round
(reached before any fail-fast or timeout abort) sees every participating
service's occurrence count strictly exceed its `logs_seen`; on success every
service's `logs_seen` is incremented by exactly one (`bumpAll`), which is
what makes `logs_seen` go 0 → 1 on bring-up and 1 → 2 on a restart wait. -/
theorem wait_for_logs_ready_iff (w : World) (ss : List Service) (fuel : Nat)
    (out : List Service) (T : Nat) (hT : maxTimeout? ss = some T) :
    wait_for_logs w ss fuel = .ready out ↔
      ∃ t, t < fuel ∧ allReady w t ss = true
        ∧ (∀ u, u < t → allReady w u ss = false ∧ roundFails w T u = false)
        ∧ out = bumpAll ss := by
  unfold wait_for_logs
  rw [hT]
  simpa using waitLoop_ready_iff_aux w T ss fuel 0 out

/-- C1 witness: a two-round world where the pattern count first exceeds
`logs_seen` on round 1; the wait succeeds and bumps `logs_seen` by one. -/
theorem wait_for_logs_ready_iff_witness :
    maxTimeout? [sW] = some 5
    ∧ (wait_for_logs wRD [sW] 3 = .ready (bumpAll [sW]) ↔
        ∃ t, t < 3 ∧ allReady wRD t [sW] = true
          ∧ (∀ u, u < t → allReady wRD u [sW] = false ∧ roundFails wRD 5 u = false)
          ∧ bumpAll [sW] = bumpAll [sW]) :=
  ⟨rfl, wait_for_logs_ready_iff wRD [sW] 3 (bumpAll [sW]) 5 rfl⟩

/-- C10. Invoked on an empty service set, the readiness wait panics while
unwrapping the maximum timeout, before consulting the world at all (the
result does not depend on `w` or on any log). -/
theorem wait_for_logs_empty_panics (w : World) (fuel : Nat) :
    wait_for_logs w [] fuel = .panicEmptyServices :=
  rfl

/-- C4. The wait budget is the maximum of the participating services'
timeouts; a timeout failure happens on a round whose elapsed clock exceeds
that maximum, and its payload is the per-service Found/Missing report
(mentioning every service's name, pattern and verdict) plus the full
environment logs of that round. -/
theorem wait_for_logs_timeout_spec (w : World) (ss : List Service) (fuel : Nat)
    (r l : String) (h : wait_for_logs w ss fuel = .timedOut r l) :
    ∃ T, maxTimeout? ss = some T
      ∧ (∀ s ∈ ss, s.timeout ≤ T) ∧ T ∈ ss.map (·.timeout)
      ∧ ∃ t, t < fuel ∧ T < w.elapsed t
        ∧ r = timeoutReport w t ss ∧ l = w.allLogs t
        ∧ ∀ s ∈ ss, strHasSub r s.name
            ∧ strHasSub r s.log_to_wait_for.source
            ∧ strHasSub r
                (if s.log_to_wait_for.is_match (w.serviceLog t s.name) = true
                  then "Found" else "Missing") := by
  unfold wait_for_logs at h
  cases hT : maxTimeout? ss with
  | none => rw [hT] at h; cases h
  | some T =>
    rw [hT] at h
    obtain ⟨hle, hmem⟩ := maxTimeout?_spec ss T hT
    obtain ⟨t, _, htf, hel, hr, hl⟩ := waitLoop_timedOut_aux w T ss fuel 0 r l h
    refine ⟨T, rfl, hle, hmem, t, by omega, hel, hr, hl, ?_⟩
    intro s hs
    rw [hr]
    exact timeoutReport_mentions w t ss s hs

/-- C4 witness: one service whose pattern never occurs, with the clock past
its timeout from round 0; the wait times out with the report and logs. -/
theorem wait_for_logs_timeout_spec_witness :
    wait_for_logs wTO [sW] 1 = .timedOut (timeoutReport wTO 0 [sW]) "env-logs"
    ∧ ∃ T, maxTimeout? [sW] = some T
      ∧ (∀ s ∈ [sW], s.timeout ≤ T) ∧ T ∈ [sW].map (·.timeout)
      ∧ ∃ t, t < 1 ∧ T < wTO.elapsed t
        ∧ timeoutReport wTO 0 [sW] = timeoutReport wTO t [sW]
        ∧ "env-logs" = wTO.allLogs t
        ∧ ∀ s ∈ [sW],
            strHasSub (timeoutReport wTO 0 [sW]) s.name
            ∧ strHasSub (timeoutReport wTO 0 [sW]) s.log_to_wait_for.source
            ∧ strHasSub (timeoutReport wTO 0 [sW])
                (if s.log_to_wait_for.is_match (wTO.serviceLog t s.name) = true
                  then "Found" else "Missing") := by
  have h : wait_for_logs wTO [sW] 1
      = .timedOut (timeoutReport wTO 0 [sW]) "env-logs" := rfl
  exact ⟨h, wait_for_logs_timeout_spec wTO [sW] 1 _ _ h⟩

/-- C5. A fail-fast failure happens only when the status flag is usable, only
for one of the statuses `exited`, `dead`, `removing`, on a round whose
`ps --status` output has more than one line; its payload is that output plus
the full environment logs. When the `--status` probe of the `ps --help` text
fails, the wait never ends in a fail-fast failure. -/
theorem wait_for_logs_status_check_spec (w : World) (ss : List Service)
    (fuel : Nat) (st c l : String) :
    (wait_for_logs w ss fuel = .containerFailed st c l →
      w.canUseStatusFlag = true
      ∧ (st = "exited" ∨ st = "dead" ∨ st = "removing")
      ∧ ∃ t, t < fuel ∧ failedStatus? w t = some st
          ∧ 1 < countNewlines (w.psOutput t st)
          ∧ c = w.psOutput t st ∧ l = w.allLogs t)
    ∧ (w.canUseStatusFlag = false →
        wait_for_logs w ss fuel ≠ .containerFailed st c l) := by
  constructor
  · intro h
    unfold wait_for_logs at h
    cases hT : maxTimeout? ss with
    | none => rw [hT] at h; cases h
    | some T =>
      rw [hT] at h
      obtain ⟨hflag, t, _, htf, hst, hc, hl⟩ :=
        waitLoop_containerFailed_aux w T ss fuel 0 st c l h
      obtain ⟨hmem, hlines⟩ := failedStatus?_spec w t st hst
      exact ⟨hflag, hmem, t, by omega, hst, hlines, hc, hl⟩
  · intro hflag h
    unfold wait_for_logs at h
    cases hT : maxTimeout? ss with
    | none => rw [hT] at h; cases h
    | some T =>
      rw [hT] at h
      obtain ⟨hflag', _⟩ := waitLoop_containerFailed_aux w T ss fuel 0 st c l h
      rw [hflag] at hflag'
      cases hflag'

/-- C5 witness: `ps --help` advertises `--status`, the `exited` probe output
has three lines, the service is never ready; the wait fails fast on round 0
with that output and the full logs, while the clock has not moved at all. -/
theorem wait_for_logs_status_check_spec_witness :
    wait_for_logs wCF [sW] 1 = .containerFailed "exited" "h\na\nb" "env-logs"
    ∧ (wCF.canUseStatusFlag = true
      ∧ ("exited" = "exited" ∨ "exited" = "dead" ∨ "exited" = "removing")
      ∧ ∃ t, t < 1 ∧ failedStatus? wCF t = some "exited"
          ∧ 1 < countNewlines (wCF.psOutput t "exited")
          ∧ "h\na\nb" = wCF.psOutput t "exited"
          ∧ "env-logs" = wCF.allLogs t) := by
  have h : wait_for_logs wCF [sW] 1 = .containerFailed "exited" "h\na\nb" "env-logs" := rfl
  exact ⟨h, (wait_for_logs_status_check_spec wCF [sW] 1 "exited" "h\na\nb" "env-logs").1 h⟩

/-! ## Monotonicity of `logs_seen` -/

/-- A successful wait returns exactly the input services with `logs_seen`
bumped. -/
theorem wait_for_logs_ready_shape (w : World) (ss : List Service) (fuel : Nat)
    (out : List Service) (h : wait_for_logs w ss fuel = .ready out) :
    out = bumpAll ss := by
  unfold wait_for_logs at h
  cases hT : maxTimeout? ss with
  | none => rw [hT] at h; cases h
  | some T =>
    rw [hT] at h
    obtain ⟨_, _, _, _, hout⟩ := (waitLoop_ready_iff_aux w T ss fuel 0 out).mp h
    exact hout

theorem forall₂_bumpAll (ss : List Service) :
    List.Forall₂ (fun a b => b.logs_seen = a.logs_seen + 1) ss (bumpAll ss) := by
  induction ss with
  | nil => exact List.Forall₂.nil
  | cons s rest ih => exact List.Forall₂.cons rfl ih

theorem forall₂_le_refl (l : List Service) :
    List.Forall₂ (fun a b => a.logs_seen ≤ b.logs_seen) l l := by
  induction l with
  | nil => exact List.Forall₂.nil
  | cons s rest ih => exact List.Forall₂.cons (Nat.le_refl _) ih

/-- Replacing the first service named `n` by a service with a larger
`logs_seen` than the one `find?` located is pointwise monotone. -/
theorem replaceFirst_monotone (l : List Service) (n : String) (s s' : Service)
    (hfind : l.find? (fun x => x.name == n) = some s)
    (hs : s.logs_seen ≤ s'.logs_seen) :
    List.Forall₂ (fun a b => a.logs_seen ≤ b.logs_seen) l (replaceFirst l n s') := by
  induction l with
  | nil => cases hfind
  | cons hd tl ih =>
    by_cases hname : (hd.name == n) = true
    · have hhd : hd = s := by
        have hx := hfind
        simp only [List.find?_cons, hname, Option.some.injEq] at hx
        exact hx
      unfold replaceFirst
      rw [if_pos hname]
      exact List.Forall₂.cons (hhd ▸ hs) (forall₂_le_refl tl)
    · have hname' : (hd.name == n) = false := by simpa using hname
      have htl : tl.find? (fun x => x.name == n) = some s := by
        have hx := hfind
        simpa only [List.find?_cons, hname'] using hx
      unfold replaceFirst
      rw [if_neg hname]
      exact List.Forall₂.cons (Nat.le_refl _) (ih htl)

/-- C3. No orchestrator operation decreases any service's `logs_seen`:
`stop_service` and `kill_service` leave the in-memory state untouched, a
successful readiness wait increments every participating service's counter by
exactly one, and `start_service` leaves every counter at least as large as
before. -/
theorem logs_seen_monotone :
    (∀ dc n, DockerCompose.stop_service dc n = dc)
    ∧ (∀ dc n, DockerCompose.kill_service dc n = dc)
    ∧ (∀ w ss fuel out, wait_for_logs w ss fuel = .ready out →
        List.Forall₂ (fun a b => b.logs_seen = a.logs_seen + 1) ss out)
    ∧ (∀ w dc n fuel dc', DockerCompose.start_service w dc n fuel = some dc' →
        List.Forall₂ (fun a b => a.logs_seen ≤ b.logs_seen)
          dc.services dc'.services) := by
  refine ⟨fun _ _ => rfl, fun _ _ => rfl, ?_, ?_⟩
  · intro w ss fuel out h
    rw [wait_for_logs_ready_shape w ss fuel out h]
    exact forall₂_bumpAll ss
  · intro w dc n fuel dc' h
    cases hfind : dc.services.find? (fun s => s.name == n) with
    | none => simp [DockerCompose.start_service, hfind] at h
    | some service =>
      cases hwait : wait_for_logs w [service] fuel with
      | ready out =>
        have hout : out = [bumpSeen service] :=
          wait_for_logs_ready_shape w [service] fuel out hwait
        subst hout
        simp only [DockerCompose.start_service, hfind, hwait, Option.some.injEq] at h
        subst h
        exact replaceFirst_monotone dc.services n service (bumpSeen service) hfind
          (Nat.le_succ _)
      | containerFailed st c l => simp [DockerCompose.start_service, hfind, hwait] at h
      | timedOut r l => simp [DockerCompose.start_service, hfind, hwait] at h
      | panicEmptyServices => simp [DockerCompose.start_service, hfind, hwait] at h
      | outOfFuel => simp [DockerCompose.start_service, hfind, hwait] at h

/-- C3 witness: starting `db` in the two-round world succeeds and leaves its
`logs_seen` one higher; pointwise the counters never decreased. -/
theorem logs_seen_monotone_witness :
    DockerCompose.start_service wRD dcW "db" 3
      = some ⟨"compose.yaml", [bumpSeen sW]⟩
    ∧ List.Forall₂ (fun a b => a.logs_seen ≤ b.logs_seen)
        dcW.services
        (DockerCompose.mk "compose.yaml" [bumpSeen sW]).services := by
  have h : DockerCompose.start_service wRD dcW "db" 3
      = some ⟨"compose.yaml", [bumpSeen sW]⟩ := rfl
  exact ⟨h, logs_seen_monotone.2.2.2 wRD dcW "db" 3 _ h⟩

/-! ## `run_command` -/

theorem argsDebugRest_mentions (l : List String) (a : String) (ha : a ∈ l) :
    strHasSub (argsDebugRest l) a := by
  induction l with
  | nil => cases ha
  | cons hd tl ih =>
    rcases List.mem_cons.mp ha with rfl | ha'
    · exact ⟨", \"".data, ("\"" ++ argsDebugRest tl).data,
        by simp [argsDebugRest, String.data_append]⟩
    · unfold argsDebugRest
      exact strHasSub_appendL _ _ _ (ih ha')

/-- Every argument occurs (quoted) inside the Debug rendering of the slice. -/
theorem argsDebug_mentions (l : List String) (a : String) (ha : a ∈ l) :
    strHasSub (argsDebug l) a := by
  cases l with
  | nil => cases ha
  | cons hd tl =>
    rcases List.mem_cons.mp ha with rfl | ha'
    · exact ⟨"[\"".data, ("\"" ++ argsDebugRest tl ++ "]").data,
        by simp [argsDebug, String.data_append]⟩
    · unfold argsDebug
      exact strHasSub_appendR _ _ _
        (strHasSub_appendL _ _ _ (argsDebugRest_mentions tl a ha'))

/-- C7. Given that the capture itself succeeded, `run_command` returns the
merged output exactly when the process exit status is a success; otherwise it
returns an error mentioning the command, every argument, the exit status and
the full combined output. The model consumes exactly one capture: there is no
retry. -/
theorem run_command_spec (command : String) (args : List String) (data : CmdResult) :
    ((run_command command args (.ok data)).isOk = true ↔ data.success = true)
    ∧ (data.success = true →
        run_command command args (.ok data) = .ok data.output)
    ∧ (data.success = false → ∃ msg,
        run_command command args (.ok data) = .error msg
        ∧ strHasSub msg command
        ∧ (∀ a ∈ args, strHasSub msg a)
        ∧ strHasSub msg data.status
        ∧ strHasSub msg data.output) := by
  refine ⟨?_, ?_, ?_⟩
  · cases hs : data.success with
    | true => simp [run_command, hs, Except.isOk, Except.toBool]
    | false => simp [run_command, hs, Except.isOk, Except.toBool]
  · intro hs; simp [run_command, hs]
  · intro hs
    refine ⟨"command " ++ command ++ " " ++ argsDebug args ++ " exited with "
      ++ data.status ++ " and output:\n" ++ data.output, ?_, ?_, ?_, ?_, ?_⟩
    · simp [run_command, hs]
    · exact ⟨"command ".data,
        (" " ++ argsDebug args ++ " exited with " ++ data.status
          ++ " and output:\n" ++ data.output).data,
        by simp [String.data_append]⟩
    · intro a ha
      have h1 : strHasSub (argsDebug args) a := argsDebug_mentions args a ha
      exact strHasSub_appendR _ _ _ (strHasSub_appendR _ _ _ (strHasSub_appendR _ _ _
        (strHasSub_appendR _ _ _ (strHasSub_appendL _ _ _ h1))))
    · exact ⟨("command " ++ command ++ " " ++ argsDebug args ++ " exited with ").data,
        (" and output:\n" ++ data.output).data,
        by simp [String.data_append]⟩
    · exact ⟨("command " ++ command ++ " " ++ argsDebug args ++ " exited with "
          ++ data.status ++ " and output:\n").data, [],
        by simp [String.data_append]⟩

/-- C7 witness: a failing `docker ps` capture produces the diagnostic error
mentioning the command, the argument, the status and the output. -/
theorem run_command_spec_witness :
    (CmdResult.mk false "boom" "Exited(1)").success = false
    ∧ ∃ msg,
        run_command "docker" ["ps"] (.ok (CmdResult.mk false "boom" "Exited(1)"))
          = .error msg
        ∧ strHasSub msg "docker"
        ∧ (∀ a ∈ ["ps"], strHasSub msg a)
        ∧ strHasSub msg (CmdResult.mk false "boom" "Exited(1)").status
        ∧ strHasSub msg (CmdResult.mk false "boom" "Exited(1)").output :=
  ⟨rfl, (run_command_spec "docker" ["ps"] (CmdResult.mk false "boom" "Exited(1)")).2.2 rfl⟩

/-! ## Teardown on destruction -/

/-- C9. Destruction always invokes teardown: the forced `kill` is always
issued, and when it succeeds the `down -v` follows. While unwinding from a
panic a cleanup failure is only printed — the outcome is never a fresh
panic — whereas on normal destruction a cleanup failure panics with the
error. -/
theorem drop_clean_up_spec (dc : DockerCompose) (p : Bool) (w : DropWorld) :
    ((dropDockerCompose dc p w).1.head? = some ["compose", "-f", dc.file_path, "kill"])
    ∧ ((run_command "docker" ["compose", "-f", dc.file_path, "kill"] w.killRes).isOk
          = true →
        (dropDockerCompose dc p w).1 =
          [["compose", "-f", dc.file_path, "kill"],
           ["compose", "-f", dc.file_path, "down", "-v"]])
    ∧ (p = true → ∀ m, (dropDockerCompose dc p w).2 ≠ .panicked m)
    ∧ (p = true → ∀ e, (clean_up dc.file_path w).2 = .error e →
        (dropDockerCompose dc p w).2 = .printedError
          ("ERROR: docker compose failed to bring down while already panicking: " ++ e))
    ∧ (p = false → ∀ e, (clean_up dc.file_path w).2 = .error e →
        (dropDockerCompose dc p w).2 = .panicked e) := by
  cases hk : run_command "docker" ["compose", "-f", dc.file_path, "kill"] w.killRes with
  | error e =>
    cases p with
    | true =>
      refine ⟨by simp [dropDockerCompose, clean_up, hk], ?_, ?_, ?_, ?_⟩
      · intro hok; simp [Except.isOk, Except.toBool] at hok
      · intro _ m
        simp [dropDockerCompose, clean_up, hk]
      · intro _ e' he'
        simp only [clean_up, hk] at he'
        simp only [Except.error.injEq] at he'
        subst he'
        simp [dropDockerCompose, clean_up, hk]
      · intro hfalse; cases hfalse
    | false =>
      refine ⟨by simp [dropDockerCompose, clean_up, hk], ?_, ?_, ?_, ?_⟩
      · intro hok; simp [Except.isOk, Except.toBool] at hok
      · intro htrue; cases htrue
      · intro htrue; cases htrue
      · intro _ e' he'
        simp only [clean_up, hk] at he'
        simp only [Except.error.injEq] at he'
        subst he'
        simp [dropDockerCompose, clean_up, hk]
  | ok out =>
    cases hd : run_command "docker" ["compose", "-f", dc.file_path, "down", "-v"]
        w.downRes with
    | error e =>
      cases p with
      | true =>
        refine ⟨by simp [dropDockerCompose, clean_up, hk, hd], ?_, ?_, ?_, ?_⟩
        · intro _; simp [dropDockerCompose, clean_up, hk, hd]
        · intro _ m; simp [dropDockerCompose, clean_up, hk, hd]
        · intro _ e' he'
          simp only [clean_up, hk, hd] at he'
          simp only [Except.error.injEq] at he'
          subst he'
          simp [dropDockerCompose, clean_up, hk, hd]
        · intro hfalse; cases hfalse
      | false =>
        refine ⟨by simp [dropDockerCompose, clean_up, hk, hd], ?_, ?_, ?_, ?_⟩
        · intro _; simp [dropDockerCompose, clean_up, hk, hd]
        · intro htrue; cases htrue
        · intro htrue; cases htrue
        · intro _ e' he'
          simp only [clean_up, hk, hd] at he'
          simp only [Except.error.injEq] at he'
          subst he'
          simp [dropDockerCompose, clean_up, hk, hd]
    | ok out' =>
      refine ⟨by simp [dropDockerCompose, clean_up, hk, hd], ?_, ?_, ?_, ?_⟩
      · intro _; simp [dropDockerCompose, clean_up, hk, hd]
      · intro _ m; cases p <;> simp [dropDockerCompose, clean_up, hk, hd]
      · intro _ e' he'
        simp only [clean_up, hk, hd] at he'
        cases he'
      · intro _ e' he'
        simp only [clean_up, hk, hd] at he'
        cases he'

/-- C9 witness: with a panicking destruction whose `down -v` capture fails,
teardown still starts with the forced kill and the failure is only printed. -/
theorem drop_clean_up_spec_witness :
    (true = true)
    ∧ ((clean_up "compose.yaml" dwW).2 = .error "down failed")
    ∧ (dropDockerCompose dcW true dwW).2 = .printedError
        ("ERROR: docker compose failed to bring down while already panicking: "
          ++ "down failed") := by
  have he : (clean_up "compose.yaml" dwW).2 = .error "down failed" := rfl
  exact ⟨rfl, he, (drop_clean_up_spec dcW true dwW).2.2.2.1 rfl "down failed" he⟩

/-! ## Manifest extraction -/

theorem insertAssoc_mem :
    ∀ (l : List (String × String)) (k v : String) (pr : String × String),
      pr ∈ insertAssoc l k v → pr = (k, v) ∨ pr ∈ l := by
  intro l
  induction l with
  | nil =>
    intro k v pr h
    simp only [insertAssoc] at h
    exact Or.inl (by simpa using h)
  | cons hd tl ih =>
    intro k v pr h
    obtain ⟨k', v'⟩ := hd
    by_cases hk : (k' == k) = true
    · unfold insertAssoc at h
      rw [if_pos hk] at h
      rcases List.mem_cons.mp h with rfl | h'
      · exact Or.inl rfl
      · exact Or.inr (List.mem_cons_of_mem _ h')
    · unfold insertAssoc at h
      rw [if_neg hk] at h
      rcases List.mem_cons.mp h with rfl | h'
      · exact Or.inr (List.mem_cons_self _ _)
      · rcases ih k v pr h' with h'' | h''
        · exact Or.inl h''
        · exact Or.inr (List.mem_cons_of_mem _ h'')

theorem insertAssoc_self :
    ∀ (l : List (String × String)) (k v : String), (k, v) ∈ insertAssoc l k v := by
  intro l
  induction l with
  | nil => intro k v; simp [insertAssoc]
  | cons hd tl ih =>
    intro k v
    obtain ⟨k', v'⟩ := hd
    by_cases hk : (k' == k) = true
    · unfold insertAssoc
      rw [if_pos hk]
      exact List.mem_cons_self _ _
    · unfold insertAssoc
      rw [if_neg hk]
      exact List.mem_cons_of_mem _ (ih k v)

theorem insertAssoc_key_pres :
    ∀ (l : List (String × String)) (k v name i), (name, i) ∈ l →
      ∃ i', (name, i') ∈ insertAssoc l k v := by
  intro l
  induction l with
  | nil => intro k v name i h; cases h
  | cons hd tl ih =>
    intro k v name i h
    obtain ⟨k', v'⟩ := hd
    by_cases hk : (k' == k) = true
    · unfold insertAssoc
      rw [if_pos hk]
      rcases List.mem_cons.mp h with heq | h'
      · have hname : name = k' := (Prod.mk.injEq _ _ _ _).mp heq |>.1
        have hk' : k' = k := by simpa using hk
        exact ⟨v, by rw [hname, hk']; exact List.mem_cons_self _ _⟩
      · exact ⟨i, List.mem_cons_of_mem _ h'⟩
    · unfold insertAssoc
      rw [if_neg hk]
      rcases List.mem_cons.mp h with heq | h'
      · have hname : name = k' := (Prod.mk.injEq _ _ _ _).mp heq |>.1
        exact ⟨v', by rw [hname]; exact List.mem_cons_self _ _⟩
      · obtain ⟨i', hi'⟩ := ih k v name i h'
        exact ⟨i', List.mem_cons_of_mem _ hi'⟩

/-- Inversion of one successful step of the manifest loop. -/
theorem collectServices_cons_ok (acc : List (String × String)) (k v : Value)
    (rest : List (Value × Value)) (m : List (String × String))
    (h : collectServices acc ((k, v) :: rest) = .ok m) :
    ∃ n sm img, k = Value.string n ∧ v = Value.mapping sm
      ∧ mapGet sm "image" = some (Value.string img)
      ∧ collectServices (insertAssoc acc n img) rest = .ok m := by
  cases k with
  | string n =>
    cases v with
    | mapping sm =>
      cases himg : mapGet sm "image" with
      | none => simp [collectServices, himg] at h
      | some iv =>
        cases iv with
        | string img =>
          refine ⟨n, sm, img, rfl, rfl, himg, ?_⟩
          simpa [collectServices, himg] using h
        | null => simp [collectServices, himg] at h
        | bool b => simp [collectServices, himg] at h
        | number q => simp [collectServices, himg] at h
        | sequence l => simp [collectServices, himg] at h
        | mapping l => simp [collectServices, himg] at h
    | null => simp [collectServices] at h
    | bool b => simp [collectServices] at h
    | number q => simp [collectServices] at h
    | string s2 => simp [collectServices] at h
    | sequence l => simp [collectServices] at h
  | null => simp [collectServices] at h
  | bool b => simp [collectServices] at h
  | number q => simp [collectServices] at h
  | sequence l => simp [collectServices] at h
  | mapping l => simp [collectServices] at h

theorem collectServices_isOk_iff :
    ∀ (svcs : List (Value × Value)) (acc : List (String × String)),
      (collectServices acc svcs).isOk = true ↔ ∀ p ∈ svcs, GoodServiceEntry p := by
  intro svcs
  induction svcs with
  | nil => intro acc; simp [collectServices, Except.isOk, Except.toBool]
  | cons p rest ih =>
    intro acc
    obtain ⟨k, v⟩ := p
    constructor
    · intro h
      have hok : ∃ m, collectServices acc ((k, v) :: rest) = .ok m := by
        cases hc : collectServices acc ((k, v) :: rest) with
        | ok m => exact ⟨m, rfl⟩
        | error e => rw [hc] at h; simp [Except.isOk, Except.toBool] at h
      obtain ⟨m, hm⟩ := hok
      obtain ⟨n, sm, img, rfl, rfl, himg, hrest⟩ :=
        collectServices_cons_ok acc k v rest m hm
      intro q hq
      rcases List.mem_cons.mp hq with rfl | hq'
      · exact ⟨⟨n, rfl⟩, sm, rfl, img, himg⟩
      · exact (ih (insertAssoc acc n img)).mp (by simp [hrest, Except.isOk, Except.toBool])
          q hq'
    · intro h
      obtain ⟨⟨n, hn⟩, sm, hsm, img, himg⟩ := h (k, v) (List.mem_cons_self _ _)
      simp only at hn hsm
      subst hn
      subst hsm
      have : collectServices acc ((Value.string n, Value.mapping sm) :: rest)
          = collectServices (insertAssoc acc n img) rest := by
        simp [collectServices, himg]
      rw [this]
      exact (ih (insertAssoc acc n img)).mpr
        (fun q hq => h q (List.mem_cons_of_mem _ hq))

/-- Every binding already accumulated keeps its key through the rest of the
loop. -/
theorem collectServices_key_pres :
    ∀ (svcs : List (Value × Value)) (acc m : List (String × String)),
      collectServices acc svcs = .ok m →
      ∀ name i, (name, i) ∈ acc → ∃ i', (name, i') ∈ m := by
  intro svcs
  induction svcs with
  | nil =>
    intro acc m h name i hi
    simp only [collectServices, Except.ok.injEq] at h
    exact ⟨i, h ▸ hi⟩
  | cons p rest ih =>
    intro acc m h name i hi
    obtain ⟨k, v⟩ := p
    obtain ⟨n, sm, img, rfl, rfl, himg, hrest⟩ :=
      collectServices_cons_ok acc k v rest m h
    obtain ⟨i', hi'⟩ := insertAssoc_key_pres acc n img name i hi
    exact ih (insertAssoc acc n img) m hrest name i' hi'

/-- Every binding of the result comes from the accumulator or from a
`services` entry whose `image` field supplies the value. -/
theorem collectServices_from :
    ∀ (svcs : List (Value × Value)) (acc m : List (String × String)),
      collectServices acc svcs = .ok m →
      ∀ pr ∈ m, pr ∈ acc
        ∨ ∃ p ∈ svcs, p.1 = Value.string pr.1
            ∧ ∃ sm, p.2 = Value.mapping sm
                ∧ mapGet sm "image" = some (Value.string pr.2) := by
  intro svcs
  induction svcs with
  | nil =>
    intro acc m h pr hpr
    simp only [collectServices, Except.ok.injEq] at h
    exact Or.inl (h ▸ hpr)
  | cons p rest ih =>
    intro acc m h pr hpr
    obtain ⟨k, v⟩ := p
    obtain ⟨n, sm, img, rfl, rfl, himg, hrest⟩ :=
      collectServices_cons_ok acc k v rest m h
    rcases ih (insertAssoc acc n img) m hrest pr hpr with hacc | hsvc
    · rcases insertAssoc_mem acc n img pr hacc with rfl | hacc'
      · exact Or.inr ⟨(Value.string n, Value.mapping sm), List.mem_cons_self _ _,
          rfl, sm, rfl, himg⟩
      · exact Or.inl hacc'
    · obtain ⟨q, hq, hrest'⟩ := hsvc
      exact Or.inr ⟨q, List.mem_cons_of_mem _ hq, hrest'⟩

/-- Every string-keyed `services` entry contributes its key to the result. -/
theorem collectServices_keys :
    ∀ (svcs : List (Value × Value)) (acc m : List (String × String)),
      collectServices acc svcs = .ok m →
      ∀ p ∈ svcs, ∀ name, p.1 = Value.string name → ∃ img, (name, img) ∈ m := by
  intro svcs
  induction svcs with
  | nil => intro acc m h p hp; cases hp
  | cons p rest ih =>
    intro acc m h q hq name hname
    obtain ⟨k, v⟩ := p
    obtain ⟨n, sm, img, rfl, rfl, himg, hrest⟩ :=
      collectServices_cons_ok acc k v rest m h
    rcases List.mem_cons.mp hq with rfl | hq'
    · simp only at hname
      obtain rfl : n = name := by
        have := hname
        simpa [Value.string.injEq] using this
      exact collectServices_key_pres rest (insertAssoc acc n img) m hrest n img
        (insertAssoc_self acc n img)
    · exact ih (insertAssoc acc n img) m hrest q hq' name hname

/-- C8. Manifest extraction succeeds exactly on well-shaped documents (a
top-level mapping with a `services` mapping of string-keyed entries, each a
mapping with a string `image` field); documents that deviate fail. Only the
`services` node influences the result, every extracted binding comes from a
`services` entry's `image` field, and every `services` entry's name reaches
the result. -/
theorem get_service_to_image_spec (doc : Value) :
    ((get_service_to_image doc).isOk = true ↔ WellShapedManifest doc)
    ∧ (∀ root root', mapGet root "services" = mapGet root' "services" →
        get_service_to_image (Value.mapping root)
          = get_service_to_image (Value.mapping root'))
    ∧ ∀ root svcs m, doc = Value.mapping root →
        mapGet root "services" = some (Value.mapping svcs) →
        get_service_to_image doc = .ok m →
        (∀ pr ∈ m, ∃ p ∈ svcs, p.1 = Value.string pr.1
            ∧ ∃ sm, p.2 = Value.mapping sm
                ∧ mapGet sm "image" = some (Value.string pr.2))
        ∧ (∀ p ∈ svcs, ∀ name, p.1 = Value.string name → ∃ img, (name, img) ∈ m) := by
  refine ⟨?_, ?_, ?_⟩
  · constructor
    · intro h
      cases doc with
      | mapping root =>
        cases hsv : mapGet root "services" with
        | none => simp [get_service_to_image, hsv, Except.isOk, Except.toBool] at h
        | some sv =>
          cases sv with
          | mapping svcs =>
            have hok : (collectServices [] svcs).isOk = true := by
              simpa [get_service_to_image, hsv] using h
            exact ⟨root, svcs, rfl, hsv, (collectServices_isOk_iff svcs []).mp hok⟩
          | null => simp [get_service_to_image, hsv, Except.isOk, Except.toBool] at h
          | bool b => simp [get_service_to_image, hsv, Except.isOk, Except.toBool] at h
          | number q => simp [get_service_to_image, hsv, Except.isOk, Except.toBool] at h
          | string s => simp [get_service_to_image, hsv, Except.isOk, Except.toBool] at h
          | sequence l => simp [get_service_to_image, hsv, Except.isOk, Except.toBool] at h
      | null => simp [get_service_to_image, Except.isOk, Except.toBool] at h
      | bool b => simp [get_service_to_image, Except.isOk, Except.toBool] at h
      | number q => simp [get_service_to_image, Except.isOk, Except.toBool] at h
      | string s => simp [get_service_to_image, Except.isOk, Except.toBool] at h
      | sequence l => simp [get_service_to_image, Except.isOk, Except.toBool] at h
    · rintro ⟨root, svcs, rfl, hsv, hgood⟩
      have : get_service_to_image (Value.mapping root) = collectServices [] svcs := by
        simp [get_service_to_image, hsv]
      rw [this]
      exact (collectServices_isOk_iff svcs []).mpr hgood
  · intro root root' heq
    simp only [get_service_to_image]
    rw [heq]
  · rintro root svcs m rfl hsv hok
    have hcol : collectServices [] svcs = .ok m := by
      simpa [get_service_to_image, hsv] using hok
    constructor
    · intro pr hpr
      rcases collectServices_from svcs [] m hcol pr hpr with hacc | h
      · cases hacc
      · exact h
    · intro p hp name hname
      exact collectServices_keys svcs [] m hcol p hp name hname

/-- C8 witness: the one-service document extracts `a → x`; its `services`
node is well shaped and the characterizations hold for it. -/
theorem get_service_to_image_spec_witness :
    docC2 = Value.mapping rootC2
    ∧ mapGet rootC2 "services" = some (Value.mapping svcsC2)
    ∧ get_service_to_image docC2 = .ok [("a", "x")]
    ∧ ((∀ pr ∈ [(("a" : String), ("x" : String))], ∃ p ∈ svcsC2,
          p.1 = Value.string pr.1
          ∧ ∃ sm, p.2 = Value.mapping sm
              ∧ mapGet sm "image" = some (Value.string pr.2))
      ∧ (∀ p ∈ svcsC2, ∀ name, p.1 = Value.string name
          → ∃ img, (name, img) ∈ [(("a" : String), ("x" : String))])) := by
  have h3 : get_service_to_image docC2 = .ok [("a", "x")] := rfl
  exact ⟨rfl, rfl, h3,
    (get_service_to_image_spec docC2).2.2 rootC2 svcsC2 [("a", "x")] rfl rfl h3⟩

/-! ## Construction: image resolution and the build callback -/

/-- A `get_services` failure names an image that is referenced by the
manifest and has no catalog entry. -/
theorem get_services_error_spec (iw : List Image) :
    ∀ (s2i : List (String × String)) (img : String),
      get_services iw s2i = .error img →
      (∃ sn, (sn, img) ∈ s2i) ∧ ∀ im ∈ iw, im.name ≠ img := by
  intro s2i
  induction s2i with
  | nil => intro img h; simp [get_services] at h
  | cons p rest ih =>
    intro img h
    obtain ⟨sn, imgname⟩ := p
    cases hf : iw.find? (fun image => image.name == imgname) with
    | some image =>
      have hrest : get_services iw rest = .error img := by
        simp only [get_services, hf] at h
        cases hr : get_services iw rest with
        | error e =>
          rw [hr] at h
          simp only [Except.map] at h
          simpa using h
        | ok l => rw [hr] at h; simp [Except.map] at h
      obtain ⟨⟨sn', hmem⟩, hni⟩ := ih img hrest
      exact ⟨⟨sn', List.mem_cons_of_mem _ hmem⟩, hni⟩
    | none =>
      simp only [get_services, hf] at h
      obtain rfl : imgname = img := by simpa using h
      refine ⟨⟨sn, List.mem_cons_self _ _⟩, ?_⟩
      intro im him heq
      have hnp := List.find?_eq_none.mp hf im him
      rw [heq] at hnp
      simp at hnp

/-- C2 counterexample: with an empty catalog and a manifest declaring service
`a` with image `x`, construction panics naming `x`, yet the `up -d` step is
already in the emitted trace: the containers were started before the failure,
contradicting "fails … before any container is started". -/
theorem new_missing_image_after_up_cex :
    (DockerCompose.new [] nwC2 1).1 = .panicMissingImage "x"
    ∧ Event.composeUpD ∈ (DockerCompose.new [] nwC2 1).2 := by
  refine ⟨rfl, ?_⟩
  have h : (DockerCompose.new [] nwC2 1).2
      = [Event.runtimeCheck, Event.cleanUpKill, Event.cleanUpDown,
         Event.buildImages ["x"], Event.composeUpD] := rfl
  rw [h]
  simp

/-- C2 amended. If the manifest references an image with no catalog entry,
construction fails fatally naming that image — but only after `up -d` has
been issued: the panic trace ends with the start command already performed,
so the failure does not precede container startup. -/
theorem new_missing_image_panics_after_up (iw : List Image) (nw : NewWorld)
    (fuel : Nat) (s2i : List (String × String)) (img : String)
    (h1 : get_service_to_image nw.doc = .ok s2i)
    (h2 : get_services iw s2i = .error img) :
    (DockerCompose.new iw nw fuel).1 = .panicMissingImage img
    ∧ (DockerCompose.new iw nw fuel).2 =
        [Event.runtimeCheck, Event.cleanUpKill, Event.cleanUpDown,
         Event.buildImages (s2i.map (·.2)), Event.composeUpD]
    ∧ Event.composeUpD ∈ (DockerCompose.new iw nw fuel).2
    ∧ (∃ sn, (sn, img) ∈ s2i)
    ∧ (∀ im ∈ iw, im.name ≠ img) := by
  obtain ⟨hex, hni⟩ := get_services_error_spec iw s2i img h2
  refine ⟨?_, ?_, ?_, hex, hni⟩ <;> simp [DockerCompose.new, h1, h2]

/-- C2-amended witness: the concrete empty-catalog construction. -/
theorem new_missing_image_panics_after_up_witness :
    get_service_to_image nwC2.doc = .ok [("a", "x")]
    ∧ get_services [] [("a", "x")] = .error "x"
    ∧ ((DockerCompose.new [] nwC2 1).1 = .panicMissingImage "x"
      ∧ (DockerCompose.new [] nwC2 1).2 =
          [Event.runtimeCheck, Event.cleanUpKill, Event.cleanUpDown,
           Event.buildImages ([(("a" : String), ("x" : String))].map (·.2)),
           Event.composeUpD]
      ∧ Event.composeUpD ∈ (DockerCompose.new [] nwC2 1).2
      ∧ (∃ sn, (sn, "x") ∈ [(("a" : String), ("x" : String))])
      ∧ (∀ im ∈ ([] : List Image), im.name ≠ "x")) :=
  ⟨rfl, rfl, new_missing_image_panics_after_up [] nwC2 1 [("a", "x")] "x" rfl rfl⟩

/-- C6 counterexample: with two services `a` and `b` sharing image `x`, the
build callback receives `["x", "x"]` — one entry per service — which is not
the list of distinct image names. -/
theorem image_builder_args_not_distinct_cex :
    (DockerCompose.new [] nwC6 0).2 =
      [Event.runtimeCheck, Event.cleanUpKill, Event.cleanUpDown,
       Event.buildImages ["x", "x"], Event.composeUpD]
    ∧ ¬ (["x", "x"] : List String).Nodup :=
  ⟨rfl, by simp⟩

/-- C6 amended. Once the manifest parses, construction invokes the build
callback exactly once, before the `up -d` start step, passing the image names
referenced by the manifest's services one per service (an image shared by
several services appears once per sharing service, so the list need not be
distinct). -/
theorem image_builder_called_once_before_up (iw : List Image) (nw : NewWorld)
    (fuel : Nat) (s2i : List (String × String))
    (h : get_service_to_image nw.doc = .ok s2i) :
    ∃ post, (DockerCompose.new iw nw fuel).2 =
        [Event.runtimeCheck, Event.cleanUpKill, Event.cleanUpDown]
          ++ [Event.buildImages (s2i.map (·.2))] ++ post
      ∧ post.head? = some Event.composeUpD
      ∧ ∀ l, Event.buildImages l ∉ post := by
  cases h2 : get_services iw s2i with
  | error img =>
    refine ⟨[Event.composeUpD], ?_, rfl, ?_⟩
    · simp [DockerCompose.new, h, h2]
    · intro l; simp
  | ok services =>
    cases h3 : wait_for_logs nw.wait services fuel with
    | ready out =>
      refine ⟨[Event.composeUpD, Event.waitForLogs], ?_, rfl, ?_⟩
      · simp [DockerCompose.new, h, h2, h3]
      · intro l; simp
    | containerFailed st c lg =>
      refine ⟨[Event.composeUpD, Event.waitForLogs], ?_, rfl, ?_⟩
      · simp [DockerCompose.new, h, h2, h3]
      · intro l; simp
    | timedOut r lg =>
      refine ⟨[Event.composeUpD, Event.waitForLogs], ?_, rfl, ?_⟩
      · simp [DockerCompose.new, h, h2, h3]
      · intro l; simp
    | panicEmptyServices =>
      refine ⟨[Event.composeUpD, Event.waitForLogs], ?_, rfl, ?_⟩
      · simp [DockerCompose.new, h, h2, h3]
      · intro l; simp
    | outOfFuel =>
      refine ⟨[Event.composeUpD, Event.waitForLogs], ?_, rfl, ?_⟩
      · simp [DockerCompose.new, h, h2, h3]
      · intro l; simp

/-- C6-amended witness: the shared-image construction, whose callback list is
`["x", "x"]`. -/
theorem image_builder_called_once_before_up_witness :
    get_service_to_image nwC6.doc = .ok [("a", "x"), ("b", "x")]
    ∧ ∃ post, (DockerCompose.new [] nwC6 0).2 =
        [Event.runtimeCheck, Event.cleanUpKill, Event.cleanUpDown]
          ++ [Event.buildImages
              ([(("a" : String), ("x" : String)),
                (("b" : String), ("x" : String))].map (·.2))] ++ post
      ∧ post.head? = some Event.composeUpD
      ∧ ∀ l, Event.buildImages l ∉ post :=
  ⟨rfl, image_builder_called_once_before_up [] nwC6 0 [("a", "x"), ("b", "x")] rfl⟩

end DockerComposeRunner
